import Mathlib

/-!
Shallow embedding of `src/base/arith.rs` of the substrate-mfm engine.

The source defines a two-variant constant value type

  enum Const { Unsigned(u128), Signed(i128) }

together with parsing, widening casts, saturating/checked arithmetic,
bitwise operations, shifts, derived comparison, and a bit-field
extraction primitive `apply`.

Machine integers are embedded as `Nat` (u128 bit patterns, < 2^128) and
`Int` (i128 values, in [-2^127, 2^127)).  Rust arithmetic that can panic
under checked (debug) semantics — overflowing multiplication and
negation, division or remainder by zero or by the signed overflow pair
(i128::MIN, -1), out-of-range shift amounts, and u8 subtraction
underflow — is embedded as an `Option`-valued operation where `none` is
the abnormal-termination (panic) outcome.  Saturating operations are
total, exactly as in Rust.
-/

set_option maxRecDepth 10000

namespace SubstrateArith

/-- Number of values of a 128-bit machine word, 2^128. -/
def U128MOD : Nat := 2 ^ 128

/-- Largest u128 value, 2^128 - 1. -/
def U128MAX : Nat := 2 ^ 128 - 1

/-- Smallest i128 value, -2^127. -/
def I128MIN : Int := -(2 ^ 127)

/-- Largest i128 value, 2^127 - 1. -/
def I128MAX : Int := 2 ^ 127 - 1

/-- Reinterpret a 128-bit unsigned pattern as an i128 value; models the
Rust cast `x as i128` on a `u128` operand (two's complement). -/
def u128AsI128 (x : Nat) : Int :=
  if x < 2 ^ 127 then (x : Int) else (x : Int) - 2 ^ 128

/-- Reinterpret an i128 value as its 128-bit unsigned pattern; models the
Rust cast `x as u128` on an `i128` operand (two's complement). -/
def i128AsU128 (x : Int) : Nat :=
  (x % (2 ^ 128 : Int)).toNat

/-- Models `u128::saturating_add`. -/
def u128SaturatingAdd (x y : Nat) : Nat := min (x + y) U128MAX

/-- Models `u128::saturating_sub` (Nat subtraction already clamps at 0). -/
def u128SaturatingSub (x y : Nat) : Nat := x - y

/-- Models `i128::saturating_add`. -/
def i128SaturatingAdd (x y : Int) : Int := max I128MIN (min (x + y) I128MAX)

/-- Models `i128::saturating_sub`. -/
def i128SaturatingSub (x y : Int) : Int := max I128MIN (min (x - y) I128MAX)

/-- Models checked u128 multiplication: `none` is the overflow panic. -/
def u128CheckedMul (x y : Nat) : Option Nat :=
  if x * y < 2 ^ 128 then some (x * y) else none

/-- Models checked i128 multiplication: `none` is the overflow panic. -/
def i128CheckedMul (x y : Int) : Option Int :=
  if I128MIN ≤ x * y ∧ x * y ≤ I128MAX then some (x * y) else none

/-- Models checked i128 addition: `none` is the overflow panic. -/
def i128CheckedAdd (x y : Int) : Option Int :=
  if I128MIN ≤ x + y ∧ x + y ≤ I128MAX then some (x + y) else none

/-- Models checked i128 subtraction: `none` is the overflow panic. -/
def i128CheckedSub (x y : Int) : Option Int :=
  if I128MIN ≤ x - y ∧ x - y ≤ I128MAX then some (x - y) else none

/-- Models u128 division: `none` is the division-by-zero panic. -/
def u128Div (x y : Nat) : Option Nat :=
  if y = 0 then none else some (x / y)

/-- Models u128 remainder: `none` is the division-by-zero panic. -/
def u128Rem (x y : Nat) : Option Nat :=
  if y = 0 then none else some (x % y)

/-- Models i128 division (truncated toward zero): `none` is the panic on a
zero divisor or on the overflowing pair (i128::MIN, -1). -/
def i128Div (x y : Int) : Option Int :=
  if y = 0 then none
  else if x = I128MIN ∧ y = -1 then none
  else some (Int.tdiv x y)

/-- Models i128 remainder (sign of the dividend): `none` is the panic on a
zero divisor or on the overflowing pair (i128::MIN, -1). -/
def i128Rem (x y : Int) : Option Int :=
  if y = 0 then none
  else if x = I128MIN ∧ y = -1 then none
  else some (Int.tmod x y)

/-- Models checked i128 negation: `none` is the panic on i128::MIN. -/
def i128CheckedNeg (x : Int) : Option Int :=
  if x = I128MIN then none else some (-x)

/-- Models `u128 >> s` with a u8 amount: `none` is the panic on s >= 128. -/
def u128Shr (x : Nat) (s : Nat) : Option Nat :=
  if s < 128 then some (x >>> s) else none

/-- Models `u128 << s` (shifted-out bits are discarded silently, only an
out-of-range amount panics). -/
def u128Shl (x : Nat) (s : Nat) : Option Nat :=
  if s < 128 then some ((x <<< s) % 2 ^ 128) else none

/-- Models `i128 >> s`, the arithmetic (sign-extending) right shift. -/
def i128Shr (x : Int) (s : Nat) : Option Int :=
  if s < 128 then some (Int.fdiv x (2 ^ s)) else none

/-- Models `i128 & i128`, bitwise AND on two's-complement patterns. -/
def i128Land (x y : Int) : Int :=
  u128AsI128 (Nat.land (i128AsU128 x) (i128AsU128 y))

/-- Models checked u8 subtraction: `none` is the underflow panic. -/
def u8Sub (x y : Nat) : Option Nat :=
  if y ≤ x then some (x - y) else none

/-- The constant value type of `arith.rs`:
`enum Const { Unsigned(u128), Signed(i128) }`. -/
inductive Const where
  | Unsigned (x : Nat)
  | Signed (x : Int)
deriving DecidableEq, Repr

/-- Representation invariant: the payload fits the Rust machine type. -/
def Const.WF : Const → Prop
  | .Unsigned x => x < 2 ^ 128
  | .Signed x => I128MIN ≤ x ∧ x ≤ I128MAX

/-- Models `Const::is_zero`. -/
def Const.is_zero : Const → Bool
  | .Unsigned x => x == 0
  | .Signed x => x == 0

/-- Models `Const::as_u128` (widen-to-unsigned reinterpretation). -/
def Const.as_u128 : Const → Nat
  | .Unsigned x => x
  | .Signed x => i128AsU128 x

/-- Models `Const::as_i128` (widen-to-signed reinterpretation). -/
def Const.as_i128 : Const → Int
  | .Unsigned x => u128AsI128 x
  | .Signed x => x

/-- Models `impl Add for Const` (saturating, left variant authoritative). -/
def Const.add : Const → Const → Const
  | .Unsigned x, rhs => .Unsigned (u128SaturatingAdd x rhs.as_u128)
  | .Signed x, rhs => .Signed (i128SaturatingAdd x rhs.as_i128)

/-- Models `impl Sub for Const` (saturating, left variant authoritative). -/
def Const.sub : Const → Const → Const
  | .Unsigned x, rhs => .Unsigned (u128SaturatingSub x rhs.as_u128)
  | .Signed x, rhs => .Signed (i128SaturatingSub x rhs.as_i128)

/-- Models `impl Mul for Const` (native `*`; under checked arithmetic an
overflowing product panics, embedded as `none`). -/
def Const.mul : Const → Const → Option Const
  | .Unsigned x, rhs => (u128CheckedMul x rhs.as_u128).map .Unsigned
  | .Signed x, rhs => (i128CheckedMul x rhs.as_i128).map .Signed

/-- Models `impl Div for Const` (native `/`; panics on a zero divisor and
on signed overflow, embedded as `none`). -/
def Const.div : Const → Const → Option Const
  | .Unsigned x, rhs => (u128Div x rhs.as_u128).map .Unsigned
  | .Signed x, rhs => (i128Div x rhs.as_i128).map .Signed

/-- Models `impl Rem for Const` (native `%`; panics on a zero divisor and
on signed overflow, embedded as `none`). -/
def Const.rem : Const → Const → Option Const
  | .Unsigned x, rhs => (u128Rem x rhs.as_u128).map .Unsigned
  | .Signed x, rhs => (i128Rem x rhs.as_i128).map .Signed

/-- Models `impl Neg for Const`: `-(x as i128)` for Unsigned, `-x` for
Signed; negating i128::MIN panics, embedded as `none`. -/
def Const.neg : Const → Option Const
  | .Unsigned x => (i128CheckedNeg (u128AsI128 x)).map .Signed
  | .Signed x => (i128CheckedNeg x).map .Signed

/-- Models `impl Shr<u8> for Const`. -/
def Const.shr : Const → Nat → Option Const
  | .Unsigned x, s => (u128Shr x s).map .Unsigned
  | .Signed x, s => (i128Shr x s).map .Signed

/-- Models `impl BitAnd for Const` (left variant authoritative). -/
def Const.land : Const → Const → Const
  | .Unsigned x, rhs => .Unsigned (Nat.land x rhs.as_u128)
  | .Signed x, rhs => .Signed (i128Land x rhs.as_i128)

/-- Modelled from the spec: the Field Selector descriptor
(`crate::base::FieldSelector`) is consumed but not defined in the visible
source; per the spec it carries two unsigned byte-sized fields `offset`
and `length`.  Byte values are embedded as naturals (below 256 where a
claim needs the u8 range). -/
structure FieldSelector where
  offset : Nat
  length : Nat

/-- Models `Const::apply`:
`(self >> f.offset) & ((1u128 << (f.length - 1)) - 1).into()`, with the
sub-expressions evaluated in the source order; the u8 subtraction
`f.length - 1` and both shifts can panic under checked arithmetic,
embedded as `none`. -/
def Const.apply (v : Const) (f : FieldSelector) : Option Const :=
  match v.shr f.offset with
  | none => none
  | some shifted =>
    match u8Sub f.length 1 with
    | none => none
    | some lm1 =>
      match u128Shl 1 lm1 with
      | none => none
      | some p => some (shifted.land (.Unsigned (p - 1)))

/-- Models checked u128 addition: `none` is the overflow panic. -/
def u128CheckedAdd (x y : Nat) : Option Nat :=
  if x + y < 2 ^ 128 then some (x + y) else none

/-- Error kinds of Rust `std::num::ParseIntError`, as produced by
`from_str_radix`. -/
inductive ParseIntErrorKind where
  | empty
  | invalidDigit
  | posOverflow
  | negOverflow
deriving DecidableEq, Repr

/-- Models `char::to_digit` without the radix bound: the raw digit value
of an ASCII alphanumeric character. -/
def charDigit (c : Char) : Option Nat :=
  if '0' ≤ c ∧ c ≤ '9' then some (c.toNat - '0'.toNat)
  else if 'a' ≤ c ∧ c ≤ 'z' then some (c.toNat - 'a'.toNat + 10)
  else if 'A' ≤ c ∧ c ≤ 'Z' then some (c.toNat - 'A'.toNat + 10)
  else none

/-- Models `char::to_digit(radix)`: a digit value valid for the radix. -/
def digitInRadix (radix : Nat) (c : Char) : Option Nat :=
  match charDigit c with
  | some d => if d < radix then some d else none
  | none => none

/-- Models the accumulation loop of `u128::from_str_radix`:
`acc = acc.checked_mul(radix) ... checked_add(digit)`, failing with
`PosOverflow` when a checked step fails. -/
def u128ParseDigits (radix : Nat) : List Char → Nat → Except ParseIntErrorKind Nat
  | [], acc => .ok acc
  | c :: cs, acc =>
    match digitInRadix radix c with
    | none => .error .invalidDigit
    | some d =>
      match u128CheckedMul acc radix with
      | none => .error .posOverflow
      | some m =>
        match u128CheckedAdd m d with
        | none => .error .posOverflow
        | some a => u128ParseDigits radix cs a

/-- Models `u128::from_str_radix` on an already-decoded character list:
an empty string is `Empty`; a leading `+` is stripped (a bare sign is
`InvalidDigit`); a leading `-` is not stripped for an unsigned target and
fails as an invalid digit inside the loop. -/
def u128FromStrRadix (s : List Char) (radix : Nat) : Except ParseIntErrorKind Nat :=
  match s with
  | [] => .error .empty
  | c :: rest =>
    if c = '+' then
      if rest = [] then .error .invalidDigit
      else u128ParseDigits radix rest 0
    else u128ParseDigits radix (c :: rest) 0

/-- Models the positive accumulation loop of `i128::from_str_radix`. -/
def i128ParseDigitsPos (radix : Nat) : List Char → Int → Except ParseIntErrorKind Int
  | [], acc => .ok acc
  | c :: cs, acc =>
    match digitInRadix radix c with
    | none => .error .invalidDigit
    | some d =>
      match i128CheckedMul acc radix with
      | none => .error .posOverflow
      | some m =>
        match i128CheckedAdd m d with
        | none => .error .posOverflow
        | some a => i128ParseDigitsPos radix cs a

/-- Models the negative accumulation loop of `i128::from_str_radix`
(after a leading `-`): `acc = acc.checked_mul(radix) ...
checked_sub(digit)`, failing with `NegOverflow`. -/
def i128ParseDigitsNeg (radix : Nat) : List Char → Int → Except ParseIntErrorKind Int
  | [], acc => .ok acc
  | c :: cs, acc =>
    match digitInRadix radix c with
    | none => .error .invalidDigit
    | some d =>
      match i128CheckedMul acc radix with
      | none => .error .negOverflow
      | some m =>
        match i128CheckedSub m d with
        | none => .error .negOverflow
        | some a => i128ParseDigitsNeg radix cs a

/-- Models `i128::from_str_radix` on an already-decoded character list. -/
def i128FromStrRadix (s : List Char) (radix : Nat) : Except ParseIntErrorKind Int :=
  match s with
  | [] => .error .empty
  | c :: rest =>
    if c = '+' then
      if rest = [] then .error .invalidDigit
      else i128ParseDigitsPos radix rest 0
    else if c = '-' then
      if rest = [] then .error .invalidDigit
      else i128ParseDigitsNeg radix rest 0
    else i128ParseDigitsPos radix (c :: rest) 0

/-- Models `Const::from_str_radix`. -/
def Const.from_str_radix (s : List Char) (radix : Nat) : Except ParseIntErrorKind Const :=
  (u128FromStrRadix s radix).map .Unsigned

/-- Models `Const::from_str_signed_radix`. -/
def Const.from_str_signed_radix (s : List Char) (radix : Nat) : Except ParseIntErrorKind Const :=
  (i128FromStrRadix s radix).map .Signed

/-- One digit-accumulation step of the mathematical denotation of a digit
string. -/
def digitStep (radix : Nat) (a : Nat) (c : Char) : Nat :=
  a * radix + (digitInRadix radix c).getD 0

/-- Accumulated denotation of a digit list starting from `acc`. -/
def foldAccU (radix acc : Nat) (cs : List Char) : Nat :=
  cs.foldl (digitStep radix) acc

/-- The number denoted by a digit list in the given radix. -/
def digitsVal (radix : Nat) (cs : List Char) : Nat :=
  foldAccU radix 0 cs

/-- Positive Int digit-accumulation step. -/
def digitStepP (radix : Nat) (a : Int) (c : Char) : Int :=
  a * radix + ((digitInRadix radix c).getD 0 : Nat)

/-- Negative Int digit-accumulation step. -/
def digitStepN (radix : Nat) (a : Int) (c : Char) : Int :=
  a * radix - ((digitInRadix radix c).getD 0 : Nat)

/-- Accumulated positive Int denotation. -/
def foldAccP (radix : Nat) (acc : Int) (cs : List Char) : Int :=
  cs.foldl (digitStepP radix) acc

/-- Accumulated negative Int denotation. -/
def foldAccN (radix : Nat) (acc : Int) (cs : List Char) : Int :=
  cs.foldl (digitStepN radix) acc

/-- Strings accepted by the unsigned parse: nonempty, an optional leading
`+`, all remaining characters digits of the radix, and the denoted value
inside the u128 range. -/
def UWellFormed (radix : Nat) (s : List Char) : Prop :=
  match s with
  | [] => False
  | c :: rest =>
    if c = '+' then
      rest ≠ [] ∧ (∀ x ∈ rest, (digitInRadix radix x).isSome) ∧
        digitsVal radix rest < 2 ^ 128
    else
      (∀ x ∈ c :: rest, (digitInRadix radix x).isSome) ∧
        digitsVal radix (c :: rest) < 2 ^ 128

/-- Strings accepted by the signed parse: nonempty, an optional leading
sign, all remaining characters digits of the radix, and the denoted value
inside the i128 range for that sign. -/
def SWellFormed (radix : Nat) (s : List Char) : Prop :=
  match s with
  | [] => False
  | c :: rest =>
    if c = '+' then
      rest ≠ [] ∧ (∀ x ∈ rest, (digitInRadix radix x).isSome) ∧
        (digitsVal radix rest : Int) ≤ I128MAX
    else if c = '-' then
      rest ≠ [] ∧ (∀ x ∈ rest, (digitInRadix radix x).isSome) ∧
        (digitsVal radix rest : Int) ≤ 2 ^ 127
    else
      (∀ x ∈ c :: rest, (digitInRadix radix x).isSome) ∧
        (digitsVal radix (c :: rest) : Int) ≤ I128MAX

/-- Models the derived `PartialEq` on `Const`: payload equality within a
variant, `false` across variants. -/
def Const.beq : Const → Const → Bool
  | .Unsigned x, .Unsigned y => x == y
  | .Signed x, .Signed y => x == y
  | _, _ => false

/-- Models the derived `PartialOrd::partial_cmp` on `Const`: the variant
discriminant is compared first (Unsigned is declared before Signed), then
the payloads. -/
def Const.partialCmp : Const → Const → Option Ordering
  | .Unsigned x, .Unsigned y => some (compare x y)
  | .Unsigned _, .Signed _ => some .lt
  | .Signed _, .Unsigned _ => some .gt
  | .Signed x, .Signed y => some (compare x y)

lemma u128Shl_one_eq (n : Nat) (h : n < 128) : u128Shl 1 n = some (2 ^ n) := by
  unfold u128Shl
  rw [if_pos h, Nat.shiftLeft_eq, one_mul,
    Nat.mod_eq_of_lt (Nat.pow_lt_pow_right (by norm_num) h)]

lemma mask_lt_half (L : Nat) (h : L ≤ 128) : 2 ^ (L - 1) - 1 < 2 ^ 127 := by
  have h2 : 2 ^ (L - 1) ≤ 2 ^ 127 := Nat.pow_le_pow_right (by norm_num) (by omega)
  omega

lemma i128AsU128_natCast (n : Nat) (h : n < 2 ^ 128) : i128AsU128 (n : Int) = n := by
  unfold i128AsU128
  omega

lemma u128AsI128_of_lt (x : Nat) (h : x < 2 ^ 127) : u128AsI128 x = (x : Int) := by
  unfold u128AsI128
  rw [if_pos h]

/-- C2: addition and subtraction on constant values never fail (they are
total functions into `Const`) and saturate in the left operand's domain:
an Unsigned result clamps to 0 and 2^128-1, a Signed result clamps to
-2^127 and 2^127-1; in particular Unsigned(2^128-1) + Unsigned(1) =
Unsigned(2^128-1) and Signed(-2^127) - Signed(1) = Signed(-2^127). -/
theorem c2_add_sub_saturate :
    (∀ (x : Nat) (r : Const),
        Const.add (.Unsigned x) r =
          .Unsigned (if x + r.as_u128 ≤ U128MAX then x + r.as_u128 else U128MAX)) ∧
    (∀ (x : Nat) (r : Const),
        Const.sub (.Unsigned x) r =
          .Unsigned (if r.as_u128 ≤ x then x - r.as_u128 else 0)) ∧
    (∀ (y : Int) (r : Const),
        Const.add (.Signed y) r =
          .Signed (if y + r.as_i128 < I128MIN then I128MIN
                   else if I128MAX < y + r.as_i128 then I128MAX
                   else y + r.as_i128)) ∧
    (∀ (y : Int) (r : Const),
        Const.sub (.Signed y) r =
          .Signed (if y - r.as_i128 < I128MIN then I128MIN
                   else if I128MAX < y - r.as_i128 then I128MAX
                   else y - r.as_i128)) ∧
    Const.add (.Unsigned U128MAX) (.Unsigned 1) = .Unsigned U128MAX ∧
    Const.sub (.Signed I128MIN) (.Signed 1) = .Signed I128MIN := by
  refine ⟨?_, ?_, ?_, ?_, ?_, ?_⟩
  · intro x r
    simp only [Const.add, u128SaturatingAdd, min_def]
  · intro x r
    simp only [Const.sub, u128SaturatingSub, Const.Unsigned.injEq]
    split
    · rfl
    · omega
  · intro y r
    simp only [Const.add, i128SaturatingAdd, max_def, min_def, Const.Signed.injEq]
    have hb : I128MIN < I128MAX := by unfold I128MIN I128MAX; norm_num
    split_ifs <;> omega
  · intro y r
    simp only [Const.sub, i128SaturatingSub, max_def, min_def, Const.Signed.injEq]
    have hb : I128MIN < I128MAX := by unfold I128MIN I128MAX; norm_num
    split_ifs <;> omega
  · decide
  · decide

/-- C3 counterexample: multiplication does not wrap modulo 2^128 under
checked 128-bit arithmetic; Unsigned(2^127) * Unsigned(2) is the overflow
panic (`none`), not Unsigned(0). -/
theorem c3_mul_wrap_counterexample :
    Const.mul (.Unsigned (2 ^ 127)) (.Unsigned 2) = none ∧
    Const.mul (.Unsigned (2 ^ 127)) (.Unsigned 2) ≠ some (.Unsigned 0) := by
  decide

/-- C3 (amended): multiplication is performed on the 128-bit
representations in the left operand's domain and never saturates: an
in-range product is returned exactly, and an overflowing product is a
fatal condition under checked arithmetic (`none`), never a clamped value;
in particular Unsigned(2^127) * Unsigned(2) is a fatal fault. -/
theorem c3_mul_checked :
    (∀ (x : Nat) (r : Const), x * r.as_u128 < 2 ^ 128 →
        Const.mul (.Unsigned x) r = some (.Unsigned (x * r.as_u128))) ∧
    (∀ (x : Nat) (r : Const), 2 ^ 128 ≤ x * r.as_u128 →
        Const.mul (.Unsigned x) r = none) ∧
    (∀ (y : Int) (r : Const), I128MIN ≤ y * r.as_i128 → y * r.as_i128 ≤ I128MAX →
        Const.mul (.Signed y) r = some (.Signed (y * r.as_i128))) ∧
    (∀ (y : Int) (r : Const), y * r.as_i128 < I128MIN ∨ I128MAX < y * r.as_i128 →
        Const.mul (.Signed y) r = none) ∧
    Const.mul (.Unsigned (2 ^ 127)) (.Unsigned 2) = none := by
  refine ⟨?_, ?_, ?_, ?_, by decide⟩
  · intro x r h
    simp only [Const.mul, u128CheckedMul]
    rw [if_pos h]
    rfl
  · intro x r h
    simp only [Const.mul, u128CheckedMul]
    rw [if_neg (by omega)]
    rfl
  · intro y r h1 h2
    simp only [Const.mul, i128CheckedMul]
    rw [if_pos ⟨h1, h2⟩]
    rfl
  · intro y r h
    simp only [Const.mul, i128CheckedMul]
    rw [if_neg (by unfold I128MIN I128MAX at h ⊢; omega)]
    rfl

/-- C3 witness: a concrete in-range product returned exactly. -/
theorem c3_mul_checked_witness :
    Const.mul (.Unsigned 6) (.Unsigned 7) = some (.Unsigned 42) := by
  have h := c3_mul_checked.1 6 (.Unsigned 7) (by decide)
  simpa [Const.as_u128] using h

/-- C5: negating an Unsigned value reinterprets its magnitude as i128 and
negates it, producing a Signed result; negating a Signed value stays
Signed; -Unsigned(5) = Signed(-5), -Signed(5) = Signed(-5); and negating
Signed(i128::MIN) is a fatal arithmetic fault (`none`), never a silently
wrong normal result. -/
theorem c5_neg_reinterprets :
    (∀ x : Nat, x < 2 ^ 127 →
        Const.neg (.Unsigned x) = some (.Signed (-(x : Int)))) ∧
    (∀ x : Nat, 2 ^ 127 < x → x < 2 ^ 128 →
        Const.neg (.Unsigned x) = some (.Signed ((2 ^ 128 : Int) - x))) ∧
    (∀ y : Int, y ≠ I128MIN → Const.neg (.Signed y) = some (.Signed (-y))) ∧
    Const.neg (.Unsigned 5) = some (.Signed (-5)) ∧
    Const.neg (.Signed 5) = some (.Signed (-5)) ∧
    Const.neg (.Signed I128MIN) = none := by
  refine ⟨?_, ?_, ?_, by decide, by decide, by decide⟩
  · intro x h
    have h1 : u128AsI128 x = (x : Int) := u128AsI128_of_lt x h
    have h2 : (x : Int) ≠ I128MIN := by unfold I128MIN; omega
    simp [Const.neg, h1, i128CheckedNeg, h2]
  · intro x h1 h2
    have h3 : u128AsI128 x = (x : Int) - 2 ^ 128 := by
      unfold u128AsI128
      rw [if_neg (by omega)]
    have h4 : (x : Int) - 2 ^ 128 ≠ I128MIN := by unfold I128MIN; omega
    simp only [Const.neg, h3, i128CheckedNeg]
    rw [if_neg h4]
    simp only [Option.map_some', Option.some.injEq, Const.Signed.injEq]
    ring
  · intro y h
    simp [Const.neg, i128CheckedNeg, h]

/-- C5 witness: negation applied at concrete in-range inputs. -/
theorem c5_neg_reinterprets_witness :
    Const.neg (.Unsigned 6) = some (.Signed (-6)) := by
  have h := c5_neg_reinterprets.1 6 (by norm_num)
  simpa using h

/-- C6: widen-to-unsigned and widen-to-signed are lossless two's
complement bit-pattern reinterpretations, not range checks: a negative
Signed(x) widens to x mod 2^128 (here x + 2^128), an Unsigned(x) with the
top bit set widens to the negative value x - 2^128, and composing the two
reinterpretations recovers the original bit pattern. -/
theorem c6_widening_reinterpret :
    (∀ y : Int, I128MIN ≤ y → y < 0 →
        ((Const.Signed y).as_u128 : Int) = y + 2 ^ 128) ∧
    (∀ y : Int, 0 ≤ y → y ≤ I128MAX →
        ((Const.Signed y).as_u128 : Int) = y) ∧
    (∀ x : Nat, x < 2 ^ 127 → (Const.Unsigned x).as_i128 = (x : Int)) ∧
    (∀ x : Nat, 2 ^ 127 ≤ x → x < 2 ^ 128 →
        (Const.Unsigned x).as_i128 = (x : Int) - 2 ^ 128 ∧
          (Const.Unsigned x).as_i128 < 0) ∧
    (∀ x : Nat, x < 2 ^ 128 →
        (Const.Signed ((Const.Unsigned x).as_i128)).as_u128 = x) ∧
    (∀ y : Int, I128MIN ≤ y → y ≤ I128MAX →
        (Const.Unsigned ((Const.Signed y).as_u128)).as_i128 = y) := by
  refine ⟨?_, ?_, ?_, ?_, ?_, ?_⟩
  · intro y h1 h2
    simp only [Const.as_u128, i128AsU128]
    unfold I128MIN at h1
    omega
  · intro y h1 h2
    simp only [Const.as_u128, i128AsU128]
    unfold I128MAX at h2
    omega
  · intro x h
    simp only [Const.as_i128]
    exact u128AsI128_of_lt x h
  · intro x h1 h2
    simp only [Const.as_i128, u128AsI128]
    rw [if_neg (by omega)]
    omega
  · intro x h
    simp only [Const.as_i128, Const.as_u128, u128AsI128, i128AsU128]
    split <;> omega
  · intro y h1 h2
    simp only [Const.as_i128, Const.as_u128, u128AsI128, i128AsU128]
    unfold I128MIN at h1
    unfold I128MAX at h2
    split <;> omega

/-- C6 witness: the reinterpretations evaluated at concrete inputs. -/
theorem c6_widening_reinterpret_witness :
    ((Const.Signed (-5)).as_u128 : Int) = -5 + 2 ^ 128 :=
  c6_widening_reinterpret.1 (-5) (by norm_num [I128MIN]) (by norm_num)

/-- C8 counterexample: a Signed and an Unsigned value ARE directly
comparable: derived equality returns false across variants even at equal
magnitudes, and the derived ordering compares the variant tags, putting
Unsigned(5) strictly below Signed(-3). -/
theorem c8_cross_variant_compare_counterexample :
    Const.partialCmp (.Unsigned 5) (.Signed (-3)) = some .lt ∧
    Const.beq (.Unsigned 5) (.Signed 5) = false := by
  decide

/-- C8 (amended): equality and ordering compare the stored magnitude
within a variant; across variants both comparisons are nevertheless
defined, by the variant tag alone: cross-variant equality is always
false and every Unsigned value orders strictly below every Signed value
regardless of magnitude, so a numerically meaningful cross-variant
comparison still requires an explicit widening conversion first. -/
theorem c8_compare_semantics :
    (∀ x y : Nat, (Const.beq (.Unsigned x) (.Unsigned y) = true ↔ x = y)) ∧
    (∀ x y : Nat,
        (Const.partialCmp (.Unsigned x) (.Unsigned y) = some .lt ↔ x < y)) ∧
    (∀ x y : Int, (Const.beq (.Signed x) (.Signed y) = true ↔ x = y)) ∧
    (∀ x y : Int,
        (Const.partialCmp (.Signed x) (.Signed y) = some .lt ↔ x < y)) ∧
    (∀ (x : Nat) (y : Int),
        Const.beq (.Unsigned x) (.Signed y) = false ∧
        Const.beq (.Signed y) (.Unsigned x) = false ∧
        Const.partialCmp (.Unsigned x) (.Signed y) = some .lt ∧
        Const.partialCmp (.Signed y) (.Unsigned x) = some .gt) := by
  refine ⟨?_, ?_, ?_, ?_, ?_⟩
  · intro x y
    simp [Const.beq]
  · intro x y
    simp only [Const.partialCmp, Option.some.injEq]
    exact Nat.compare_eq_lt
  · intro x y
    simp [Const.beq]
  · intro x y
    simp only [Const.partialCmp, Option.some.injEq]
    exact compare_lt_iff_lt
  · intro x y
    exact ⟨rfl, rfl, rfl, rfl⟩

/-- C9: negating Unsigned(2^127) is a fatal arithmetic fault (its bit
pattern reinterprets to i128::MIN, whose negation overflows), so unary
negation of an Unsigned value only returns normally for magnitudes other
than 2^127. -/
theorem c9_neg_unsigned_topbit :
    Const.neg (.Unsigned (2 ^ 127)) = none ∧
    (∀ x : Nat, x < 2 ^ 128 → x ≠ 2 ^ 127 →
        ∃ y : Int, Const.neg (.Unsigned x) = some (.Signed y)) := by
  refine ⟨by decide, ?_⟩
  intro x h1 h2
  simp only [Const.neg, u128AsI128, i128CheckedNeg]
  split
  · rw [if_neg (by unfold I128MIN; omega)]
    exact ⟨_, rfl⟩
  · rw [if_neg (by unfold I128MIN; omega)]
    exact ⟨_, rfl⟩

/-- C9 witness: negation returns normally at the in-range magnitude 5. -/
theorem c9_neg_unsigned_topbit_witness :
    ∃ y : Int, Const.neg (.Unsigned 5) = some (.Signed y) :=
  c9_neg_unsigned_topbit.2 5 (by norm_num) (by norm_num)

/-- C10: apply is only total for selectors with 1 <= length <= 128: a
selector with length = 0 aborts (the u8 subtraction length - 1
underflows), and length >= 129 overflows the shift building the 128-bit
mask, for every value and offset — even though offset = 0, length = 0
satisfies offset + length <= 128. -/
theorem c10_apply_length_partiality :
    (∀ (v : Const) (o : Nat), Const.apply v ⟨o, 0⟩ = none) ∧
    (∀ (v : Const) (o L : Nat), 129 ≤ L → L ≤ 255 →
        Const.apply v ⟨o, L⟩ = none) := by
  constructor
  · intro v o
    cases hv : Const.shr v o with
    | none => simp [Const.apply, hv]
    | some s =>
      have h1 : u8Sub 0 1 = none := by decide
      simp [Const.apply, hv, h1]
  · intro v o L hL1 hL2
    cases hv : Const.shr v o with
    | none => simp [Const.apply, hv]
    | some s =>
      have h1 : u8Sub L 1 = some (L - 1) := by
        unfold u8Sub
        rw [if_pos (by omega)]
      have h2 : u128Shl 1 (L - 1) = none := by
        unfold u128Shl
        rw [if_neg (by omega)]
      simp [Const.apply, hv, h1, h2]

/-- C10 witness: a concrete selector with length 130 aborts. -/
theorem c10_apply_length_partiality_witness :
    Const.apply (.Unsigned 255) ⟨0, 130⟩ = none :=
  c10_apply_length_partiality.2 (.Unsigned 255) 0 130 (by norm_num) (by norm_num)

/-- C1: for a value v and a selector with offset o and length L (in the
range where the operation returns), apply produces (v >> o) & mask with
mask = (1 << (L - 1)) - 1 = 2^(L-1) - 1, built from L - 1 rather than L;
in particular apply with offset 0, length 8 on Unsigned(0xFF) yields
Unsigned(0x7F), not Unsigned(0xFF). -/
theorem c1_apply_mask_formula :
    (∀ (x o L : Nat), o < 128 → 1 ≤ L → L ≤ 128 →
        Const.apply (.Unsigned x) ⟨o, L⟩ =
          some (.Unsigned (Nat.land (x / 2 ^ o) (2 ^ (L - 1) - 1)))) ∧
    (∀ (y : Int) (o L : Nat), o < 128 → 1 ≤ L → L ≤ 128 →
        Const.apply (.Signed y) ⟨o, L⟩ =
          some (.Signed
            ((Nat.land (i128AsU128 (Int.fdiv y (2 ^ o)))
              (2 ^ (L - 1) - 1) : Nat) : Int))) ∧
    Const.apply (.Unsigned 0xFF) ⟨0, 8⟩ = some (.Unsigned 0x7F) := by
  refine ⟨?_, ?_, by decide⟩
  · intro x o L ho hL1 hL2
    have hshr : Const.shr (.Unsigned x) o = some (.Unsigned (x >>> o)) := by
      simp [Const.shr, u128Shr, ho]
    have hsub : u8Sub L 1 = some (L - 1) := by
      unfold u8Sub
      rw [if_pos (by omega)]
    have hshl : u128Shl 1 (L - 1) = some (2 ^ (L - 1)) :=
      u128Shl_one_eq _ (by omega)
    simp [Const.apply, hshr, hsub, hshl, Const.land, Const.as_u128,
      Nat.shiftRight_eq_div_pow]
  · intro y o L ho hL1 hL2
    have hshr : Const.shr (.Signed y) o = some (.Signed (Int.fdiv y (2 ^ o))) := by
      simp [Const.shr, i128Shr, ho]
    have hsub : u8Sub L 1 = some (L - 1) := by
      unfold u8Sub
      rw [if_pos (by omega)]
    have hshl : u128Shl 1 (L - 1) = some (2 ^ (L - 1)) :=
      u128Shl_one_eq _ (by omega)
    have hmask_lt : 2 ^ (L - 1) - 1 < 2 ^ 127 := mask_lt_half L hL2
    have hmask128 : 2 ^ (L - 1) - 1 < 2 ^ 128 :=
      lt_trans hmask_lt (by norm_num)
    simp only [Const.apply, hshr, hsub, hshl, Const.land, Const.as_i128,
      Option.some.injEq, Const.Signed.injEq]
    rw [u128AsI128_of_lt _ hmask_lt]
    unfold i128Land
    rw [i128AsU128_natCast _ hmask128]
    exact u128AsI128_of_lt _ (lt_of_le_of_lt Nat.and_le_right hmask_lt)

/-- C1 witness: the off-by-one masked extraction at offset 0, length 8 of
Unsigned(255) evaluates to Unsigned(127). -/
theorem c1_apply_mask_formula_witness :
    Const.apply (.Unsigned 255) ⟨0, 8⟩ = some (.Unsigned 127) := by
  have h := c1_apply_mask_formula.1 255 0 8 (by norm_num) (by norm_num) (by norm_num)
  rw [h]
  decide

/-- C4 counterexample: Signed(-2^127) divided by the non-zero divisor
Signed(-1) does not return normally — it is the signed division overflow
panic — refuting that every non-zero divisor yields a normal return. -/
theorem c4_div_rem_counterexample :
    Const.div (.Signed I128MIN) (.Signed (-1)) = none ∧
    Const.rem (.Signed I128MIN) (.Signed (-1)) = none ∧
    (Const.Signed (-1)).as_i128 ≠ 0 := by
  decide

/-- C4 (amended): dividing or taking the remainder by a divisor that
widens to zero in the left operand's domain is a fatal condition (`none`)
and never a normal return; every non-zero divisor returns normally with
the left operand's variant, except the signed overflow case — a left
operand Signed(-2^127) with a divisor widening to -1 — which is also a
fatal condition. -/
theorem c4_div_rem_zero_fatal :
    (∀ (x : Nat) (r : Const), r.as_u128 = 0 →
        Const.div (.Unsigned x) r = none ∧ Const.rem (.Unsigned x) r = none) ∧
    (∀ (y : Int) (r : Const), r.as_i128 = 0 →
        Const.div (.Signed y) r = none ∧ Const.rem (.Signed y) r = none) ∧
    (∀ (x : Nat) (r : Const), r.as_u128 ≠ 0 →
        Const.div (.Unsigned x) r = some (.Unsigned (x / r.as_u128)) ∧
        Const.rem (.Unsigned x) r = some (.Unsigned (x % r.as_u128))) ∧
    (∀ (y : Int) (r : Const), r.as_i128 ≠ 0 → ¬(y = I128MIN ∧ r.as_i128 = -1) →
        Const.div (.Signed y) r = some (.Signed (Int.tdiv y r.as_i128)) ∧
        Const.rem (.Signed y) r = some (.Signed (Int.tmod y r.as_i128))) ∧
    (∀ r : Const, r.as_i128 = -1 →
        Const.div (.Signed I128MIN) r = none ∧
        Const.rem (.Signed I128MIN) r = none) := by
  refine ⟨?_, ?_, ?_, ?_, ?_⟩
  · intro x r h
    constructor
    · simp only [Const.div, u128Div]
      rw [if_pos h]
      rfl
    · simp only [Const.rem, u128Rem]
      rw [if_pos h]
      rfl
  · intro y r h
    constructor
    · simp only [Const.div, i128Div]
      rw [if_pos h]
      rfl
    · simp only [Const.rem, i128Rem]
      rw [if_pos h]
      rfl
  · intro x r h
    constructor
    · simp only [Const.div, u128Div]
      rw [if_neg h]
      rfl
    · simp only [Const.rem, u128Rem]
      rw [if_neg h]
      rfl
  · intro y r h1 h2
    constructor
    · simp only [Const.div, i128Div]
      rw [if_neg h1, if_neg h2]
      rfl
    · simp only [Const.rem, i128Rem]
      rw [if_neg h1, if_neg h2]
      rfl
  · intro r h
    have h1 : r.as_i128 ≠ 0 := by rw [h]; norm_num
    constructor
    · simp only [Const.div, i128Div]
      rw [if_neg h1, if_pos (by simp [h])]
      rfl
    · simp only [Const.rem, i128Rem]
      rw [if_neg h1, if_pos (by simp [h])]
      rfl

/-- C4 witness: a concrete non-zero division returning normally and a
concrete zero divisor faulting. -/
theorem c4_div_rem_zero_fatal_witness :
    Const.div (.Unsigned 7) (.Unsigned 2) = some (.Unsigned 3) ∧
    Const.div (.Unsigned 7) (.Unsigned 0) = none := by
  constructor
  · have h := (c4_div_rem_zero_fatal.2.2.1 7 (.Unsigned 2) (by decide)).1
    simpa [Const.as_u128] using h
  · exact (c4_div_rem_zero_fatal.1 7 (.Unsigned 0) (by decide)).1

lemma foldAccU_cons (radix acc : Nat) (c : Char) (cs : List Char) :
    foldAccU radix acc (c :: cs) = foldAccU radix (digitStep radix acc c) cs := rfl

lemma le_foldAccU (radix : Nat) (hr : 1 ≤ radix) (cs : List Char) :
    ∀ acc : Nat, acc ≤ foldAccU radix acc cs := by
  induction cs with
  | nil => intro acc; exact le_refl _
  | cons c cs ih =>
    intro acc
    have h1 : acc ≤ digitStep radix acc c := by
      unfold digitStep
      have h2 : acc ≤ acc * radix := Nat.le_mul_of_pos_right acc hr
      omega
    calc acc ≤ digitStep radix acc c := h1
      _ ≤ foldAccU radix (digitStep radix acc c) cs := ih _
      _ = foldAccU radix acc (c :: cs) := rfl

lemma u128ParseDigits_ok_iff (radix : Nat) (hr : 1 ≤ radix) (cs : List Char) :
    ∀ acc : Nat, acc < 2 ^ 128 → ∀ v : Nat,
      (u128ParseDigits radix cs acc = .ok v ↔
        (∀ c ∈ cs, (digitInRadix radix c).isSome) ∧
          foldAccU radix acc cs < 2 ^ 128 ∧ v = foldAccU radix acc cs) := by
  induction cs with
  | nil =>
    intro acc hacc v
    constructor
    · intro h
      injection h with h
      exact ⟨by simp, hacc, h.symm⟩
    · rintro ⟨-, -, rfl⟩
      rfl
  | cons c cs ih =>
    intro acc hacc v
    cases hd : digitInRadix radix c with
    | none =>
      simp only [u128ParseDigits, hd]
      constructor
      · intro h
        simp at h
      · rintro ⟨hvalid, -, -⟩
        have hc := hvalid c (List.mem_cons_self c cs)
        rw [hd] at hc
        simp at hc
    | some d =>
      have hstep : digitStep radix acc c = acc * radix + d := by
        unfold digitStep
        rw [hd]
        rfl
      by_cases h1 : acc * radix < 2 ^ 128
      · by_cases h2 : acc * radix + d < 2 ^ 128
        · have heq : u128ParseDigits radix (c :: cs) acc
              = u128ParseDigits radix cs (acc * radix + d) := by
            simp only [u128ParseDigits, hd, u128CheckedMul, u128CheckedAdd, h1, h2,
              if_true, if_false]
          rw [heq, ih (acc * radix + d) h2 v]
          simp [foldAccU_cons, hstep, List.forall_mem_cons, hd]
        · have heq : u128ParseDigits radix (c :: cs) acc
              = .error .posOverflow := by
            simp only [u128ParseDigits, hd, u128CheckedMul, u128CheckedAdd, h1, h2,
              if_true, if_false]
          rw [heq, foldAccU_cons, hstep]
          have hge := le_foldAccU radix hr cs (acc * radix + d)
          constructor
          · intro h
            simp at h
          · rintro ⟨-, hb, -⟩
            omega
      · have heq : u128ParseDigits radix (c :: cs) acc
            = .error .posOverflow := by
          simp only [u128ParseDigits, hd, u128CheckedMul, h1, if_false]
        rw [heq, foldAccU_cons, hstep]
        have hge := le_foldAccU radix hr cs (acc * radix + d)
        constructor
        · intro h
          simp at h
        · rintro ⟨-, hb, -⟩
          omega

lemma le_foldAccP (radix : Nat) (hr : 1 ≤ radix) (cs : List Char) :
    ∀ acc : Int, 0 ≤ acc → acc ≤ foldAccP radix acc cs := by
  induction cs with
  | nil => intro acc _; exact le_refl _
  | cons c cs ih =>
    intro acc hacc
    have h1 : acc ≤ digitStepP radix acc c := by
      unfold digitStepP
      have h2 : acc ≤ acc * radix :=
        le_mul_of_one_le_right hacc (by exact_mod_cast hr)
      have h3 : (0 : Int) ≤ ((digitInRadix radix c).getD 0 : Nat) :=
        Int.natCast_nonneg _
      omega
    calc acc ≤ digitStepP radix acc c := h1
      _ ≤ foldAccP radix (digitStepP radix acc c) cs := ih _ (le_trans hacc h1)
      _ = foldAccP radix acc (c :: cs) := rfl

lemma foldAccN_le (radix : Nat) (hr : 1 ≤ radix) (cs : List Char) :
    ∀ acc : Int, acc ≤ 0 → foldAccN radix acc cs ≤ acc := by
  induction cs with
  | nil => intro acc _; exact le_refl _
  | cons c cs ih =>
    intro acc hacc
    have hb : (1 : Int) ≤ radix := by exact_mod_cast hr
    have h1 : digitStepN radix acc c ≤ acc := by
      unfold digitStepN
      have h2 : acc * radix ≤ acc := by
        nlinarith [mul_nonneg (neg_nonneg.mpr hacc) (sub_nonneg.mpr hb)]
      have h3 : (0 : Int) ≤ ((digitInRadix radix c).getD 0 : Nat) :=
        Int.natCast_nonneg _
      omega
    calc foldAccN radix acc (c :: cs)
        = foldAccN radix (digitStepN radix acc c) cs := rfl
      _ ≤ digitStepN radix acc c := ih _ (le_trans h1 hacc)
      _ ≤ acc := h1

lemma foldAccP_natCast (radix : Nat) (cs : List Char) :
    ∀ a : Nat, foldAccP radix (a : Int) cs = ((foldAccU radix a cs : Nat) : Int) := by
  induction cs with
  | nil => intro a; rfl
  | cons c cs ih =>
    intro a
    have h : digitStepP radix (a : Int) c = ((digitStep radix a c : Nat) : Int) := by
      unfold digitStepP digitStep
      push_cast
      rfl
    rw [show foldAccP radix (a : Int) (c :: cs)
        = foldAccP radix (digitStepP radix (a : Int) c) cs from rfl, h]
    exact ih (digitStep radix a c)

lemma foldAccN_neg (radix : Nat) (cs : List Char) :
    ∀ a : Int, foldAccN radix (-a) cs = -foldAccP radix a cs := by
  induction cs with
  | nil => intro a; rfl
  | cons c cs ih =>
    intro a
    have h : digitStepN radix (-a) c = -(digitStepP radix a c) := by
      unfold digitStepN digitStepP
      ring
    rw [show foldAccN radix (-a) (c :: cs)
        = foldAccN radix (digitStepN radix (-a) c) cs from rfl, h]
    exact ih (digitStepP radix a c)

lemma i128ParseDigitsPos_ok_iff (radix : Nat) (hr : 1 ≤ radix) (cs : List Char) :
    ∀ acc : Int, 0 ≤ acc → acc ≤ I128MAX → ∀ v : Int,
      (i128ParseDigitsPos radix cs acc = .ok v ↔
        (∀ c ∈ cs, (digitInRadix radix c).isSome) ∧
          foldAccP radix acc cs ≤ I128MAX ∧ v = foldAccP radix acc cs) := by
  induction cs with
  | nil =>
    intro acc hacc0 haccM v
    constructor
    · intro h
      injection h with h
      exact ⟨by simp, haccM, h.symm⟩
    · rintro ⟨-, -, rfl⟩
      rfl
  | cons c cs ih =>
    intro acc hacc0 haccM v
    cases hd : digitInRadix radix c with
    | none =>
      simp only [i128ParseDigitsPos, hd]
      constructor
      · intro h
        simp at h
      · rintro ⟨hvalid, -, -⟩
        have hc := hvalid c (List.mem_cons_self c cs)
        rw [hd] at hc
        simp at hc
    | some d =>
      have hstep : digitStepP radix acc c = acc * radix + d := by
        unfold digitStepP
        rw [hd]
        rfl
      have hm0 : (0 : Int) ≤ acc * radix :=
        mul_nonneg hacc0 (Int.natCast_nonneg radix)
      have hd0 : (0 : Int) ≤ (d : Int) := Int.natCast_nonneg d
      have hMIN0 : I128MIN ≤ (0 : Int) := by unfold I128MIN; norm_num
      have hml : I128MIN ≤ acc * (radix : Int) := le_trans hMIN0 hm0
      by_cases h1 : acc * (radix : Int) ≤ I128MAX
      · have hal : I128MIN ≤ acc * (radix : Int) + d := by omega
        by_cases h2 : acc * (radix : Int) + d ≤ I128MAX
        · have heq : i128ParseDigitsPos radix (c :: cs) acc
              = i128ParseDigitsPos radix cs (acc * radix + d) := by
            simp only [i128ParseDigitsPos, hd, i128CheckedMul, i128CheckedAdd,
              hml, h1, hal, h2, true_and, and_true, if_true, if_false]
          rw [heq, ih (acc * radix + d) (by omega) h2 v]
          rw [show foldAccP radix acc (c :: cs)
            = foldAccP radix (digitStepP radix acc c) cs from rfl, hstep]
          simp [List.forall_mem_cons, hd]
        · have heq : i128ParseDigitsPos radix (c :: cs) acc
              = .error .posOverflow := by
            simp only [i128ParseDigitsPos, hd, i128CheckedMul, i128CheckedAdd,
              hml, h1, hal, h2, true_and, and_true, if_true, if_false]
          rw [heq, show foldAccP radix acc (c :: cs)
            = foldAccP radix (digitStepP radix acc c) cs from rfl, hstep]
          have hge := le_foldAccP radix hr cs (acc * radix + d) (by omega)
          constructor
          · intro h
            simp at h
          · rintro ⟨-, hb, -⟩
            omega
      · have heq : i128ParseDigitsPos radix (c :: cs) acc
            = .error .posOverflow := by
          simp only [i128ParseDigitsPos, hd, i128CheckedMul, hml, h1, true_and,
            and_false, if_false]
        rw [heq, show foldAccP radix acc (c :: cs)
          = foldAccP radix (digitStepP radix acc c) cs from rfl, hstep]
        have hge := le_foldAccP radix hr cs (acc * radix + d) (by omega)
        constructor
        · intro h
          simp at h
        · rintro ⟨-, hb, -⟩
          omega

lemma i128ParseDigitsNeg_ok_iff (radix : Nat) (hr : 1 ≤ radix) (cs : List Char) :
    ∀ acc : Int, I128MIN ≤ acc → acc ≤ 0 → ∀ v : Int,
      (i128ParseDigitsNeg radix cs acc = .ok v ↔
        (∀ c ∈ cs, (digitInRadix radix c).isSome) ∧
          I128MIN ≤ foldAccN radix acc cs ∧ v = foldAccN radix acc cs) := by
  induction cs with
  | nil =>
    intro acc haccL hacc0 v
    constructor
    · intro h
      injection h with h
      exact ⟨by simp, haccL, h.symm⟩
    · rintro ⟨-, -, rfl⟩
      rfl
  | cons c cs ih =>
    intro acc haccL hacc0 v
    cases hd : digitInRadix radix c with
    | none =>
      simp only [i128ParseDigitsNeg, hd]
      constructor
      · intro h
        simp at h
      · rintro ⟨hvalid, -, -⟩
        have hc := hvalid c (List.mem_cons_self c cs)
        rw [hd] at hc
        simp at hc
    | some d =>
      have hstep : digitStepN radix acc c = acc * radix - d := by
        unfold digitStepN
        rw [hd]
        rfl
      have hb : (1 : Int) ≤ radix := by exact_mod_cast hr
      have hm0 : acc * (radix : Int) ≤ 0 := by
        nlinarith [mul_nonneg (neg_nonneg.mpr hacc0) (Int.natCast_nonneg radix)]
      have hd0 : (0 : Int) ≤ (d : Int) := Int.natCast_nonneg d
      have hMAX0 : (0 : Int) ≤ I128MAX := by unfold I128MAX; norm_num
      have hmu : acc * (radix : Int) ≤ I128MAX := le_trans hm0 hMAX0
      by_cases h1 : I128MIN ≤ acc * (radix : Int)
      · have hau : acc * (radix : Int) - d ≤ I128MAX := by omega
        by_cases h2 : I128MIN ≤ acc * (radix : Int) - d
        · have heq : i128ParseDigitsNeg radix (c :: cs) acc
              = i128ParseDigitsNeg radix cs (acc * radix - d) := by
            simp only [i128ParseDigitsNeg, hd, i128CheckedMul, i128CheckedSub,
              h1, hmu, h2, hau, true_and, and_true, if_true, if_false]
          rw [heq, ih (acc * radix - d) h2 (by omega) v]
          rw [show foldAccN radix acc (c :: cs)
            = foldAccN radix (digitStepN radix acc c) cs from rfl, hstep]
          simp [List.forall_mem_cons, hd]
        · have heq : i128ParseDigitsNeg radix (c :: cs) acc
              = .error .negOverflow := by
            simp only [i128ParseDigitsNeg, hd, i128CheckedMul, i128CheckedSub,
              h1, hmu, h2, hau, true_and, and_true, if_true, if_false]
          rw [heq, show foldAccN radix acc (c :: cs)
            = foldAccN radix (digitStepN radix acc c) cs from rfl, hstep]
          have hge := foldAccN_le radix hr cs (acc * radix - d) (by omega)
          constructor
          · intro h
            simp at h
          · rintro ⟨-, hb2, -⟩
            omega
      · have heq : i128ParseDigitsNeg radix (c :: cs) acc
            = .error .negOverflow := by
          simp only [i128ParseDigitsNeg, hd, i128CheckedMul, h1, hmu, and_true,
            false_and, if_false]
        rw [heq, show foldAccN radix acc (c :: cs)
          = foldAccN radix (digitStepN radix acc c) cs from rfl, hstep]
        have hge := foldAccN_le radix hr cs (acc * radix - d) (by omega)
        constructor
        · intro h
          simp at h
        · rintro ⟨-, hb2, -⟩
          omega

lemma digitInRadix_plus (radix : Nat) : digitInRadix radix '+' = none := rfl

lemma digitInRadix_minus (radix : Nat) : digitInRadix radix '-' = none := rfl

lemma foldAccP_zero (radix : Nat) (cs : List Char) :
    foldAccP radix 0 cs = ((digitsVal radix cs : Nat) : Int) := by
  have h := foldAccP_natCast radix cs 0
  rw [Nat.cast_zero] at h
  exact h

lemma foldAccN_zero (radix : Nat) (cs : List Char) :
    foldAccN radix 0 cs = -((digitsVal radix cs : Nat) : Int) := by
  have h := foldAccN_neg radix cs 0
  rw [neg_zero] at h
  rw [h, foldAccP_zero]

lemma UWellFormed_cons (radix : Nat) (c : Char) (rest : List Char) :
    UWellFormed radix (c :: rest) =
      if c = '+' then
        rest ≠ [] ∧ (∀ x ∈ rest, (digitInRadix radix x).isSome) ∧
          digitsVal radix rest < 2 ^ 128
      else
        (∀ x ∈ c :: rest, (digitInRadix radix x).isSome) ∧
          digitsVal radix (c :: rest) < 2 ^ 128 := rfl

lemma SWellFormed_cons (radix : Nat) (c : Char) (rest : List Char) :
    SWellFormed radix (c :: rest) =
      if c = '+' then
        rest ≠ [] ∧ (∀ x ∈ rest, (digitInRadix radix x).isSome) ∧
          (digitsVal radix rest : Int) ≤ I128MAX
      else if c = '-' then
        rest ≠ [] ∧ (∀ x ∈ rest, (digitInRadix radix x).isSome) ∧
          (digitsVal radix rest : Int) ≤ 2 ^ 127
      else
        (∀ x ∈ c :: rest, (digitInRadix radix x).isSome) ∧
          (digitsVal radix (c :: rest) : Int) ≤ I128MAX := rfl

lemma u128FromStrRadix_cons (radix : Nat) (c : Char) (rest : List Char) :
    u128FromStrRadix (c :: rest) radix =
      if c = '+' then
        if rest = [] then .error .invalidDigit
        else u128ParseDigits radix rest 0
      else u128ParseDigits radix (c :: rest) 0 := rfl

lemma i128FromStrRadix_cons (radix : Nat) (c : Char) (rest : List Char) :
    i128FromStrRadix (c :: rest) radix =
      if c = '+' then
        if rest = [] then .error .invalidDigit
        else i128ParseDigitsPos radix rest 0
      else if c = '-' then
        if rest = [] then .error .invalidDigit
        else i128ParseDigitsNeg radix rest 0
      else i128ParseDigitsPos radix (c :: rest) 0 := rfl

/-- C7: for every digit string and radix in 2..=36 denoting a number in
the unsigned 128-bit range, unsigned parsing succeeds with an Unsigned
value whose widen-to-unsigned equals that number; signed parsing of an
in-range optionally sign-prefixed string yields a Signed value whose
widen-to-signed equals the denoted number; malformed or out-of-range
strings yield a ParseError. -/
theorem c7_parse_roundtrip :
    (∀ (radix : Nat) (s : List Char), 2 ≤ radix → radix ≤ 36 → s ≠ [] →
        (∀ c ∈ s, (digitInRadix radix c).isSome) →
        digitsVal radix s < 2 ^ 128 →
        Const.from_str_radix s radix = .ok (.Unsigned (digitsVal radix s)) ∧
        (Const.Unsigned (digitsVal radix s)).as_u128 = digitsVal radix s) ∧
    (∀ (radix : Nat) (s : List Char), 2 ≤ radix → radix ≤ 36 →
        ¬ UWellFormed radix s →
        ∃ e, Const.from_str_radix s radix = .error e) ∧
    (∀ (radix : Nat) (s : List Char), 2 ≤ radix → radix ≤ 36 → s ≠ [] →
        (∀ c ∈ s, (digitInRadix radix c).isSome) →
        ((digitsVal radix s : Nat) : Int) ≤ I128MAX →
        Const.from_str_signed_radix s radix
          = .ok (.Signed ((digitsVal radix s : Nat) : Int)) ∧
        (Const.Signed ((digitsVal radix s : Nat) : Int)).as_i128
          = ((digitsVal radix s : Nat) : Int)) ∧
    (∀ (radix : Nat) (t : List Char), 2 ≤ radix → radix ≤ 36 → t ≠ [] →
        (∀ c ∈ t, (digitInRadix radix c).isSome) →
        ((digitsVal radix t : Nat) : Int) ≤ I128MAX →
        Const.from_str_signed_radix ('+' :: t) radix
          = .ok (.Signed ((digitsVal radix t : Nat) : Int))) ∧
    (∀ (radix : Nat) (t : List Char), 2 ≤ radix → radix ≤ 36 → t ≠ [] →
        (∀ c ∈ t, (digitInRadix radix c).isSome) →
        ((digitsVal radix t : Nat) : Int) ≤ 2 ^ 127 →
        Const.from_str_signed_radix ('-' :: t) radix
          = .ok (.Signed (-((digitsVal radix t : Nat) : Int)))) ∧
    (∀ (radix : Nat) (s : List Char), 2 ≤ radix → radix ≤ 36 →
        ¬ SWellFormed radix s →
        ∃ e, Const.from_str_signed_radix s radix = .error e) := by
  have hMIN0 : I128MIN ≤ (0 : Int) := by unfold I128MIN; norm_num
  have hMAX0 : (0 : Int) ≤ I128MAX := by unfold I128MAX; norm_num
  refine ⟨?_, ?_, ?_, ?_, ?_, ?_⟩
  · intro radix s h2r h36 hne hvalid hlt
    have hr1 : 1 ≤ radix := by omega
    obtain ⟨c, rest, rfl⟩ : ∃ c rest, s = c :: rest := by
      cases s with
      | nil => exact absurd rfl hne
      | cons c rest => exact ⟨c, rest, rfl⟩
    have hcp : ¬ c = '+' := by
      intro h
      subst h
      have hx := hvalid '+' (List.mem_cons_self _ _)
      rw [digitInRadix_plus] at hx
      simp at hx
    refine ⟨?_, rfl⟩
    unfold Const.from_str_radix
    rw [u128FromStrRadix_cons, if_neg hcp]
    rw [(u128ParseDigits_ok_iff radix hr1 (c :: rest) 0 (by norm_num)
      (digitsVal radix (c :: rest))).mpr ⟨hvalid, hlt, rfl⟩]
    rfl
  · intro radix s h2r h36 hnwf
    have hr1 : 1 ≤ radix := by omega
    cases s with
    | nil => exact ⟨.empty, rfl⟩
    | cons c rest =>
      rw [UWellFormed_cons] at hnwf
      by_cases hcp : c = '+'
      · subst hcp
        rw [if_pos rfl] at hnwf
        by_cases hrest : rest = []
        · subst hrest
          exact ⟨.invalidDigit, rfl⟩
        · cases hp : u128ParseDigits radix rest 0 with
          | error e =>
            refine ⟨e, ?_⟩
            unfold Const.from_str_radix
            rw [u128FromStrRadix_cons, if_pos rfl, if_neg hrest, hp]
            rfl
          | ok v =>
            have hf := (u128ParseDigits_ok_iff radix hr1 rest 0 (by norm_num) v).mp hp
            exact absurd ⟨hrest, hf.1, hf.2.1⟩ hnwf
      · rw [if_neg hcp] at hnwf
        cases hp : u128ParseDigits radix (c :: rest) 0 with
        | error e =>
          refine ⟨e, ?_⟩
          unfold Const.from_str_radix
          rw [u128FromStrRadix_cons, if_neg hcp, hp]
          rfl
        | ok v =>
          have hf := (u128ParseDigits_ok_iff radix hr1 (c :: rest) 0 (by norm_num) v).mp hp
          exact absurd ⟨hf.1, hf.2.1⟩ hnwf
  · intro radix s h2r h36 hne hvalid hle
    have hr1 : 1 ≤ radix := by omega
    obtain ⟨c, rest, rfl⟩ : ∃ c rest, s = c :: rest := by
      cases s with
      | nil => exact absurd rfl hne
      | cons c rest => exact ⟨c, rest, rfl⟩
    have hcp : ¬ c = '+' := by
      intro h
      subst h
      have hx := hvalid '+' (List.mem_cons_self _ _)
      rw [digitInRadix_plus] at hx
      simp at hx
    have hcm : ¬ c = '-' := by
      intro h
      subst h
      have hx := hvalid '-' (List.mem_cons_self _ _)
      rw [digitInRadix_minus] at hx
      simp at hx
    refine ⟨?_, rfl⟩
    unfold Const.from_str_signed_radix
    rw [i128FromStrRadix_cons, if_neg hcp, if_neg hcm]
    rw [(i128ParseDigitsPos_ok_iff radix hr1 (c :: rest) 0 (le_refl 0) hMAX0
      ((digitsVal radix (c :: rest) : Nat) : Int)).mpr
      ⟨hvalid, by rw [foldAccP_zero]; exact hle, by rw [foldAccP_zero]⟩]
    rfl
  · intro radix t h2r h36 hne hvalid hle
    have hr1 : 1 ≤ radix := by omega
    unfold Const.from_str_signed_radix
    rw [i128FromStrRadix_cons, if_pos rfl, if_neg hne]
    rw [(i128ParseDigitsPos_ok_iff radix hr1 t 0 (le_refl 0) hMAX0
      ((digitsVal radix t : Nat) : Int)).mpr
      ⟨hvalid, by rw [foldAccP_zero]; exact hle, by rw [foldAccP_zero]⟩]
    rfl
  · intro radix t h2r h36 hne hvalid hle
    have hr1 : 1 ≤ radix := by omega
    unfold Const.from_str_signed_radix
    rw [i128FromStrRadix_cons, if_neg (by decide : ¬ ('-' : Char) = '+'),
      if_pos rfl, if_neg hne]
    rw [(i128ParseDigitsNeg_ok_iff radix hr1 t 0 hMIN0 (le_refl 0)
      (-((digitsVal radix t : Nat) : Int))).mpr
      ⟨hvalid, by rw [foldAccN_zero]; unfold I128MIN; omega,
        by rw [foldAccN_zero]⟩]
    rfl
  · intro radix s h2r h36 hnwf
    have hr1 : 1 ≤ radix := by omega
    cases s with
    | nil => exact ⟨.empty, rfl⟩
    | cons c rest =>
      rw [SWellFormed_cons] at hnwf
      by_cases hcp : c = '+'
      · subst hcp
        rw [if_pos rfl] at hnwf
        by_cases hrest : rest = []
        · subst hrest
          exact ⟨.invalidDigit, rfl⟩
        · cases hp : i128ParseDigitsPos radix rest 0 with
          | error e =>
            refine ⟨e, ?_⟩
            unfold Const.from_str_signed_radix
            rw [i128FromStrRadix_cons, if_pos rfl, if_neg hrest, hp]
            rfl
          | ok v =>
            have hf := (i128ParseDigitsPos_ok_iff radix hr1 rest 0
              (le_refl 0) hMAX0 v).mp hp
            have hb := hf.2.1
            rw [foldAccP_zero] at hb
            exact absurd ⟨hrest, hf.1, hb⟩ hnwf
      · by_cases hcm : c = '-'
        · subst hcm
          rw [if_neg hcp, if_pos rfl] at hnwf
          by_cases hrest : rest = []
          · subst hrest
            exact ⟨.invalidDigit, rfl⟩
          · cases hp : i128ParseDigitsNeg radix rest 0 with
            | error e =>
              refine ⟨e, ?_⟩
              unfold Const.from_str_signed_radix
              rw [i128FromStrRadix_cons, if_neg hcp, if_pos rfl, if_neg hrest, hp]
              rfl
            | ok v =>
              have hf := (i128ParseDigitsNeg_ok_iff radix hr1 rest 0
                hMIN0 (le_refl 0) v).mp hp
              have hb := hf.2.1
              rw [foldAccN_zero] at hb
              have hb2 : ((digitsVal radix rest : Nat) : Int) ≤ 2 ^ 127 := by
                unfold I128MIN at hb
                omega
              exact absurd ⟨hrest, hf.1, hb2⟩ hnwf
        · rw [if_neg hcp, if_neg hcm] at hnwf
          cases hp : i128ParseDigitsPos radix (c :: rest) 0 with
          | error e =>
            refine ⟨e, ?_⟩
            unfold Const.from_str_signed_radix
            rw [i128FromStrRadix_cons, if_neg hcp, if_neg hcm, hp]
            rfl
          | ok v =>
            have hf := (i128ParseDigitsPos_ok_iff radix hr1 (c :: rest) 0
              (le_refl 0) hMAX0 v).mp hp
            have hb := hf.2.1
            rw [foldAccP_zero] at hb
            exact absurd ⟨hf.1, hb⟩ hnwf

/-- C7 witness: parsing the decimal digit string 42 and the signed string
-42 at concrete inputs. -/
theorem c7_parse_roundtrip_witness :
    Const.from_str_radix ['4', '2'] 10 = .ok (.Unsigned (digitsVal 10 ['4', '2'])) ∧
    digitsVal 10 ['4', '2'] = 42 ∧
    Const.from_str_signed_radix ['-', '4', '2'] 10
      = .ok (.Signed (-((digitsVal 10 ['4', '2'] : Nat) : Int))) := by
  refine ⟨?_, by decide, ?_⟩
  · exact (c7_parse_roundtrip.1 10 ['4', '2'] (by norm_num) (by norm_num)
      (by decide) (by decide) (by decide)).1
  · exact c7_parse_roundtrip.2.2.2.2.1 10 ['4', '2'] (by norm_num) (by norm_num)
      (by decide) (by decide) (by decide)

end SubstrateArith
